import Mathlib

/-!
Verification of the directive-registration layer of a source-based package
build tool (`lib/spack/spack/directives.py`).

The embedding models Python dicts as insertion-ordered association lists
with replace-on-assignment semantics, drafts as a structure of those
mappings, and each directive as a pure function returning the (possibly
partially mutated) draft together with an optional raised error, matching
the mutation order of the Python source.  The external `Spec`/`Version`
parsing and constraint-intersection capability is not part of the source
tree and is modelled from the spec.
-/

set_option autoImplicit false

namespace Directives

/-- Association-list lookup: first entry whose key matches, as a Python
dict lookup (keys are unique in dicts built by our operations). -/
def alGet {α β : Type} [DecidableEq α] : List (α × β) → α → Option β
  | [], _ => none
  | (k, v) :: rest, k' => if k = k' then some v else alGet rest k'

/-- Association-list assignment, Python `d[k] = v`: replace the first
entry with the key in place, else append at the end (insertion order). -/
def alSet {α β : Type} [DecidableEq α] : List (α × β) → α → β → List (α × β)
  | [], k, v => [(k, v)]
  | (k0, v0) :: rest, k, v =>
      if k0 = k then (k0, v) :: rest else (k0, v0) :: alSet rest k v

/-- Number of entries carrying a given key. -/
def keyCount {α β : Type} [DecidableEq α] (l : List (α × β)) (k : α) : Nat :=
  (l.filter (fun p => p.1 = k)).length

/-- Modelled from the spec: a parsed spec (`spack.spec.Spec`, not under
`src/`) is a structured constraint with a package name and accumulated
constraint atoms; it is used as a mapping key compared by equality. -/
structure Spec where
  name : String
  constraints : List String
deriving DecidableEq, Repr

/-- Modelled from the spec: the external parser `Spec(string)` extracts
the dependency name (the part before any constraint sigil) and keeps the
remaining constraint text. -/
def Spec.parse (s : String) : Spec :=
  let nameChars := s.data.takeWhile (fun c => c ≠ '@')
  let restChars := s.data.drop nameChars.length
  ⟨String.mk nameChars, if restChars.isEmpty then [] else [String.mk restChars]⟩

/-- Modelled from the spec: constraint intersection (`Spec.constrain`,
not under `src/`) narrows a constraint by conjoining the other's atoms;
the name is unchanged. -/
def Spec.constrain (a b : Spec) : Spec :=
  ⟨a.name, a.constraints ++ b.constraints⟩

/-- Modelled from the spec: `parse_anonymous_spec(str, pkgName)` (not
under `src/`) resolves a condition string into a ConditionSpec named
after the package, usable as a mapping key. -/
def parse_anonymous_spec (s : String) (pkgName : String) : Spec :=
  ⟨pkgName, [s]⟩

/-- Split a character list at spaces into words. -/
def splitWordsAux : List Char → List Char → List String
  | [], acc => [String.mk acc.reverse]
  | c :: cs, acc =>
      if c = ' ' then String.mk acc.reverse :: splitWordsAux cs []
      else splitWordsAux cs (c :: acc)

/-- Modelled from the spec: `spack.spec.parse(string)` (not under
`src/`) may expand one string into several specs; whitespace-separated
spec expressions each parse as one spec. -/
def specListParse (s : String) : List Spec :=
  ((splitWordsAux s.data []).filter (fun t => t ≠ "")).map Spec.parse

/-- Modelled from the spec: a parsed `Version` (not under `src/`),
compared by equality of the parsed string. -/
structure Version where
  ver : String
deriving DecidableEq, Repr

/-- Modelled from the spec: a variant record with a boolean default and
a description string (`spack.variant.Variant`, not under `src/`). -/
structure Variant where
  default : Bool
  description : String
deriving DecidableEq, Repr

/-- An element of a Python list/tuple value, as far as the directives
inspect one (they never look inside collection elements). -/
inductive PyAtom where
  | str (s : String)
  | bool (b : Bool)
  | int (n : Int)
  | pynone
deriving DecidableEq, Repr

/-- A Python value, as far as the directives inspect one: used for the
`dicts` argument of `directive.__init__` and for truthiness coercions. -/
inductive PyVal where
  | str (s : String)
  | list (xs : List PyAtom)
  | tuple (xs : List PyAtom)
  | bool (b : Bool)
  | int (n : Int)
  | pynone
deriving DecidableEq, Repr

/-- Python truthiness (`bool(v)`) for the modelled values. -/
def PyVal.toBool : PyVal → Bool
  | .str s => decide (s ≠ "")
  | .list xs => !xs.isEmpty
  | .tuple xs => !xs.isEmpty
  | .bool b => b
  | .int n => decide (n ≠ 0)
  | .pynone => false

/-- The Python type name of a modelled value, for error messages. -/
def PyVal.typeName : PyVal → String
  | .str _ => "str"
  | .list _ => "list"
  | .tuple _ => "tuple"
  | .bool _ => "bool"
  | .int _ => "int"
  | .pynone => "NoneType"

/-- The exceptions the directive layer can raise.  `directiveError`
carries the directive name and message per `DirectiveError.__init__`;
`circularReference` is `CircularReferenceError(directive, package)`;
`spackError` is a plain `spack.error.SpackError`; `typeError` is a
Python `TypeError` (raised e.g. when a two-argument constructor is
called with one argument). -/
inductive SpackError where
  | spackError (message : String)
  | directiveError (directive : String) (message : String)
  | circularReference (directive : String) (package : String)
  | typeError (message : String)
deriving DecidableEq, Repr

/-- Is the raised error a `DirectiveError` (including its subclass
`CircularReferenceError`)? -/
def SpackError.isDirectiveError : SpackError → Bool
  | .directiveError _ _ => true
  | .circularReference _ _ => true
  | _ => false

/-- Is the raised error a `CircularReferenceError`? -/
def SpackError.isCircular : SpackError → Bool
  | .circularReference _ _ => true
  | _ => false

/-- The per-package draft: the accumulator mutated by directive calls.
All fields the directives in the source write are present, bootstrapped
to empty mappings as `ensure_dicts` guarantees. -/
structure PackageDraft where
  name : String
  versions : List (Version × List (String × String))
  dependencies : List (String × List (Spec × Spec))
  extendees : List (String × (Spec × List (String × String)))
  provided : List (Spec × Spec)
  variants : List (String × Variant)
deriving DecidableEq, Repr

/-- Result of a directive call: the optionally raised error together
with the draft state at the moment the call returned or raised (Python
mutates in place, so a raise can leave earlier writes of the same call
in place). -/
abbrev DirResult := Option SpackError × PackageDraft

/-- `_depends_on(pkg, spec, when=None)`: resolve the condition, parse
the dependency, reject self-reference, then merge into
`pkg.dependencies[dep_spec.name]`, intersecting with a stored
constraint when the condition key is already present. -/
def depends_on_impl (pkg : PackageDraft) (spec : String) (when : Option String) :
    DirResult :=
  let w := when.getD pkg.name
  let when_spec := parse_anonymous_spec w pkg.name
  let dep_spec := Spec.parse spec
  if pkg.name = dep_spec.name then
    (some (.circularReference "depends_on" pkg.name), pkg)
  else
    let conditions := (alGet pkg.dependencies dep_spec.name).getD []
    let conditions' :=
      match alGet conditions when_spec with
      | some stored => alSet conditions when_spec (stored.constrain dep_spec)
      | none => alSet conditions when_spec dep_spec
    (none, { pkg with dependencies := alSet pkg.dependencies dep_spec.name conditions' })

/-- `depends_on(pkg, spec, when=None)`. -/
def depends_on (pkg : PackageDraft) (spec : String) (when : Option String) :
    DirResult :=
  depends_on_impl pkg spec when

/-- `extends(pkg, spec, **kwargs)`: refuse a second extension target;
`raise DirectiveError("Packages can extend at most one other package.")`
passes one argument to the two-argument `DirectiveError.__init__`, so
Python raises a `TypeError` instead.  Otherwise run the dependency merge
and record `pkg.extendees[spec]` keyed by the raw spec string. -/
def extends_directive (pkg : PackageDraft) (spec : String) (when : Option String)
    (kwargs : List (String × String)) : DirResult :=
  if pkg.extendees ≠ [] then
    (some (.typeError "__init__() takes exactly 3 arguments (2 given)"), pkg)
  else
    match depends_on_impl pkg spec (some (when.getD pkg.name)) with
    | (some e, pkg') => (some e, pkg')
    | (none, pkg') =>
        (none, { pkg' with extendees := alSet pkg'.extendees spec (Spec.parse spec, kwargs) })

/-- The inner loop of `provides`: for each parsed provided spec, raise
`CircularReferenceError('depends_on', pkg.name)` on self-reference
(specs already handled stay inserted), else assign the provider
condition. -/
def providesLoop (pkgName : String) (provider_spec : Spec) :
    List Spec → List (Spec × Spec) → Option SpackError × List (Spec × Spec)
  | [], provided => (none, provided)
  | ps :: rest, provided =>
      if pkgName = ps.name then
        (some (.circularReference "depends_on" pkgName), provided)
      else
        providesLoop pkgName provider_spec rest (alSet provided ps provider_spec)

/-- `provides(pkg, *specs, **kwargs)`: resolve the provider condition
from `when` (default the package name), then record each provided spec. -/
def provides (pkg : PackageDraft) (specs : List String) (whenKw : Option String) :
    DirResult :=
  let spec_string := whenKw.getD pkg.name
  let provider_spec := parse_anonymous_spec spec_string pkg.name
  let parsed := specs.flatMap specListParse
  match providesLoop pkg.name provider_spec parsed pkg.provided with
  | (e, provided') => (e, { pkg with provided := provided' })

/-- `version(pkg, ver, checksum=None, **kwargs)`: a truthy `checksum`
is stored under `md5`; the kwargs record overwrites any prior entry for
the same parsed version. -/
def version (pkg : PackageDraft) (ver : String) (checksum : Option String)
    (kwargs : List (String × String)) : DirResult :=
  let kwargs' :=
    match checksum with
    | some c => if c ≠ "" then alSet kwargs "md5" c else kwargs
    | none => kwargs
  (none, { pkg with versions := alSet pkg.versions (Version.mk ver) kwargs' })

/-- A whitespace character, as Python `str.strip` removes. -/
def isSpaceChar (c : Char) : Bool :=
  c = ' ' || c = '\t' || c = '\n' || c = '\r'

/-- Python `str(x).strip()`: remove leading and trailing whitespace. -/
def pyStrip (s : String) : String :=
  String.mk (((s.data.dropWhile isSpaceChar).reverse.dropWhile isSpaceChar).reverse)

/-- Modelled from the spec: the identifier grammar
(`spack.spec.identifier_re`, not under `src/`): a word character
followed by word characters or dashes, covering the whole name. -/
def isWordChar (c : Char) : Bool :=
  c.isAlphanum || c = '_'

/-- Modelled from the spec: whole-name match against the identifier
grammar used for package/spec/variant names. -/
def identifierOk (s : String) : Bool :=
  match s.data with
  | [] => false
  | c :: cs => isWordChar c && cs.all (fun c => isWordChar c || c = '-')

/-- `variant(pkg, name, default=False, description="")`: coerce the
default to a boolean and trim the description, validate the name, store
the `Variant`.  The failure path calls the two-argument
`DirectiveError.__init__` with a single argument, so Python raises a
`TypeError`. -/
def variant (pkg : PackageDraft) (name : String) (default : PyVal)
    (description : String) : DirResult :=
  let d := default.toBool
  let descr := pyStrip description
  if ¬ identifierOk name then
    (some (.typeError "__init__() takes exactly 3 arguments (2 given)"), pkg)
  else
    (none, { pkg with variants := alSet pkg.variants name ⟨d, descr⟩ })

/-- `directive.__init__(self, dicts=None)`: a lone string becomes a
one-element tuple; a list or tuple (of any length and content) is kept;
anything else raises `TypeError`.  The registry itself is only written
later by `directive.__call__`, so a failing `__init__` registers
nothing. -/
def directiveInit (dicts : PyVal) : Except SpackError (List PyAtom) :=
  match dicts with
  | .str s => .ok [.str s]
  | .list xs => .ok xs
  | .tuple xs => .ok xs
  | other => .error (.typeError
      ("dicts arg must be list, tuple, or string. Found " ++ other.typeName ++ "."))

/-- Does the `dicts` argument have one of the accepted shapes
(string, list, or tuple)? -/
def dictsArgAccepted : PyVal → Bool
  | .str _ => true
  | .list _ => true
  | .tuple _ => true
  | _ => false

/-- A draft attribute as `ensure_dicts` inspects one: either a dict or
some non-dict value. -/
inductive Attr where
  | dict (entries : List (String × String))
  | nonDict (descr : String)
deriving DecidableEq, Repr

/-- One step of `directive.ensure_dicts`: add the attribute as an empty
dict when missing; accept an existing dict unchanged; raise
`spack.error.SpackError` on an existing non-dict attribute. -/
def ensureAttr (attrs : List (String × Attr)) (d : String) :
    Except SpackError (List (String × Attr)) :=
  match alGet attrs d with
  | none => .ok (alSet attrs d (.dict []))
  | some (.dict _) => .ok attrs
  | some (.nonDict _) =>
      .error (.spackError ("Package has non-dict " ++ d ++ " attribute!"))

/-- `directive.ensure_dicts(pkg)`: ensure every dict this directive
requires. -/
def ensureDictsList : List String → List (String × Attr) →
    Except SpackError (List (String × Attr))
  | [], attrs => .ok attrs
  | d :: ds, attrs =>
      match ensureAttr attrs d with
      | .ok attrs' => ensureDictsList ds attrs'
      | .error e => .error e

/-- Module-level `ensure_dicts(pkg)`: run every registered directive
descriptor's field bootstrap over the draft's attributes. -/
def ensure_dicts (registry : List (List String)) (attrs : List (String × Attr)) :
    Except SpackError (List (String × Attr)) :=
  match registry with
  | [] => .ok attrs
  | ds :: rest =>
      match ensureDictsList ds attrs with
      | .ok attrs' => ensure_dicts rest attrs'
      | .error e => .error e

/-- A fresh draft for a package, as bootstrapped before any directive
runs: the name set, every accumulator an empty mapping. -/
def mkDraft (n : String) : PackageDraft :=
  ⟨n, [], [], [], [], []⟩

/-- The mapping stored for a dependency name in a draft ({} when absent). -/
def depConditions (pkg : PackageDraft) (depName : String) : List (Spec × Spec) :=
  (alGet pkg.dependencies depName).getD []

/-- The resolved condition key of a directive call. -/
def whenKey (pkg : PackageDraft) (w : Option String) : Spec :=
  parse_anonymous_spec (w.getD pkg.name) pkg.name

/-- The self-reference invariant over a draft: no dependency key and no
provided spec carries the draft's own name. -/
def selfFree (pkg : PackageDraft) : Prop :=
  (∀ p ∈ pkg.dependencies, p.1 ≠ pkg.name) ∧
  (∀ q ∈ pkg.provided, q.1.name ≠ pkg.name)

/-- A draft that already extends another package: the state of a fresh
draft named `pkg` after a successful `extends("python")` call. -/
def extendingDraft : PackageDraft :=
  (extends_directive (mkDraft "pkg") "python" none []).2

/-! ### Association-list lemmas -/

theorem alGet_alSet_self {α β : Type} [DecidableEq α] (l : List (α × β)) (k : α) (v : β) :
    alGet (alSet l k v) k = some v := by
  induction l with
  | nil => simp [alGet, alSet]
  | cons p rest ih =>
      obtain ⟨k0, v0⟩ := p
      by_cases h : k0 = k
      · subst h
        simp [alGet, alSet]
      · simp [alGet, alSet, h, ih]

theorem alGet_alSet_ne {α β : Type} [DecidableEq α] (l : List (α × β)) (k k' : α) (v : β)
    (h : k ≠ k') : alGet (alSet l k v) k' = alGet l k' := by
  induction l with
  | nil => simp [alGet, alSet, h]
  | cons p rest ih =>
      obtain ⟨k0, v0⟩ := p
      by_cases h0 : k0 = k
      · subst h0
        simp [alGet, alSet, h]
      · simp [alGet, alSet, h0, ih]

theorem mem_alSet {α β : Type} [DecidableEq α] (l : List (α × β)) (k : α) (v : β)
    (p : α × β) (hp : p ∈ alSet l k v) : p ∈ l ∨ p = (k, v) := by
  induction l with
  | nil => simpa [alSet] using hp
  | cons q rest ih =>
      obtain ⟨k0, v0⟩ := q
      by_cases h0 : k0 = k
      · subst h0
        rcases (by simpa [alSet] using hp : p = (k0, v) ∨ p ∈ rest) with h | h
        · exact Or.inr (by simpa using h)
        · exact Or.inl (List.mem_cons_of_mem _ h)
      · rcases (by simpa [alSet, h0] using hp : p = (k0, v0) ∨ p ∈ alSet rest k v) with h | h
        · exact Or.inl (by simp [h])
        · rcases ih h with h' | h'
          · exact Or.inl (List.mem_cons_of_mem _ h')
          · exact Or.inr h'

theorem alGet_eq_none_iff_keyCount {α β : Type} [DecidableEq α] (l : List (α × β)) (k : α) :
    alGet l k = none ↔ keyCount l k = 0 := by
  induction l with
  | nil => simp [alGet, keyCount]
  | cons p rest ih =>
      obtain ⟨k0, v0⟩ := p
      by_cases h : k0 = k
      · subst h
        simp [alGet, keyCount]
      · simp [alGet, keyCount, h, ih]

theorem keyCount_alSet_of_zero {α β : Type} [DecidableEq α] (l : List (α × β)) (k : α) (v : β)
    (h : keyCount l k = 0) : keyCount (alSet l k v) k = 1 := by
  induction l with
  | nil => simp [alSet, keyCount]
  | cons p rest ih =>
      obtain ⟨k0, v0⟩ := p
      have h0 : ¬ (k0 = k) := by
        intro he
        simp [keyCount, he] at h
      have hrest : keyCount rest k = 0 := by
        simpa [keyCount, h0] using h
      have h2 := ih hrest
      simp only [keyCount] at h2
      simp [alSet, keyCount, h0, h2]

theorem keyCount_alSet_of_get {α β : Type} [DecidableEq α] (l : List (α × β)) (k : α)
    (v v0 : β) (h : alGet l k = some v0) : keyCount (alSet l k v) k = keyCount l k := by
  induction l with
  | nil => simp [alGet] at h
  | cons p rest ih =>
      obtain ⟨k1, v1⟩ := p
      by_cases h1 : k1 = k
      · subst h1
        simp [alSet, keyCount]
      · have hrest : alGet rest k = some v0 := by simpa [alGet, h1] using h
        have h2 := ih hrest
        simp only [keyCount] at h2
        simp [alSet, keyCount, h1, h2]

/-! ### Parser lemmas for identifier-shaped names -/

theorem identifierOk_ne_empty (s : String) (h : identifierOk s = true) : s ≠ "" := by
  intro he
  subst he
  simp [identifierOk] at h

theorem identifierOk_no_at (s : String) (h : identifierOk s = true) :
    ∀ c ∈ s.data, c ≠ '@' := by
  intro c hc he
  subst he
  cases hdata : s.data with
  | nil => rw [hdata] at hc; simp at hc
  | cons c0 cs =>
      rw [hdata] at hc
      unfold identifierOk at h
      rw [hdata] at h
      simp only [Bool.and_eq_true] at h
      rcases List.mem_cons.mp hc with h0 | h0
      · subst h0
        exact absurd h.1 (by decide)
      · have := (List.all_eq_true.mp h.2) _ h0
        exact absurd this (by decide)

theorem identifierOk_no_space (s : String) (h : identifierOk s = true) :
    ∀ c ∈ s.data, c ≠ ' ' := by
  intro c hc he
  subst he
  cases hdata : s.data with
  | nil => rw [hdata] at hc; simp at hc
  | cons c0 cs =>
      rw [hdata] at hc
      unfold identifierOk at h
      rw [hdata] at h
      simp only [Bool.and_eq_true] at h
      rcases List.mem_cons.mp hc with h0 | h0
      · subst h0
        exact absurd h.1 (by decide)
      · have := (List.all_eq_true.mp h.2) _ h0
        exact absurd this (by decide)

/-- A string without `@` parses as a bare name with no constraints. -/
theorem Spec.parse_no_at (s : String) (h : ∀ c ∈ s.data, c ≠ '@') :
    Spec.parse s = ⟨s, []⟩ := by
  unfold Spec.parse
  have htake : s.data.takeWhile (fun c => c ≠ '@') = s.data := by
    rw [List.takeWhile_eq_self_iff]
    intro c hc
    simpa using h c hc
  simp only [htake, List.drop_length, List.isEmpty_nil, if_pos rfl]
  cases s
  rfl

/-- Splitting a space-free character list yields one word. -/
theorem splitWordsAux_no_space (cs acc : List Char) (h : ∀ c ∈ cs, c ≠ ' ') :
    splitWordsAux cs acc = [String.mk (acc.reverse ++ cs)] := by
  induction cs generalizing acc with
  | nil => simp [splitWordsAux]
  | cons c rest ih =>
      have hc : ¬ (c = ' ') := h c (List.mem_cons_self _ _)
      have hrest : ∀ c ∈ rest, c ≠ ' ' := fun c hc' => h c (List.mem_cons_of_mem _ hc')
      simp [splitWordsAux, hc, ih (c :: acc) hrest]

/-- An identifier-shaped string parses (through `spack.spec.parse`) as a
single spec, its own bare name. -/
theorem specListParse_identifier (s : String) (h : identifierOk s = true) :
    specListParse s = [Spec.mk s []] := by
  unfold specListParse
  rw [splitWordsAux_no_space s.data [] (identifierOk_no_space s h)]
  have hs : String.mk s.data = s := by cases s; rfl
  have hne : s ≠ "" := identifierOk_ne_empty s h
  simp [hs, List.filter, hne, Spec.parse_no_at s (identifierOk_no_at s h)]

/-! ### Case lemmas for the dependency merge -/

theorem depends_on_impl_self (pkg : PackageDraft) (s : String) (w : Option String)
    (hself : pkg.name = (Spec.parse s).name) :
    depends_on_impl pkg s w = (some (.circularReference "depends_on" pkg.name), pkg) := by
  simp [depends_on_impl, hself]

theorem depends_on_impl_fresh (pkg : PackageDraft) (s : String) (w : Option String)
    (hself : pkg.name ≠ (Spec.parse s).name)
    (hfresh : alGet (depConditions pkg (Spec.parse s).name) (whenKey pkg w) = none) :
    depends_on_impl pkg s w =
      (none,
        ⟨pkg.name, pkg.versions,
          alSet pkg.dependencies (Spec.parse s).name
            (alSet (depConditions pkg (Spec.parse s).name) (whenKey pkg w) (Spec.parse s)),
          pkg.extendees, pkg.provided, pkg.variants⟩) := by
  unfold depConditions whenKey at hfresh
  simp [depends_on_impl, hself, hfresh, depConditions, whenKey]

theorem depends_on_impl_present (pkg : PackageDraft) (s : String) (w : Option String)
    (stored : Spec)
    (hself : pkg.name ≠ (Spec.parse s).name)
    (hprev : alGet (depConditions pkg (Spec.parse s).name) (whenKey pkg w) = some stored) :
    depends_on_impl pkg s w =
      (none,
        ⟨pkg.name, pkg.versions,
          alSet pkg.dependencies (Spec.parse s).name
            (alSet (depConditions pkg (Spec.parse s).name) (whenKey pkg w)
              (stored.constrain (Spec.parse s))),
          pkg.extendees, pkg.provided, pkg.variants⟩) := by
  unfold depConditions whenKey at hprev
  simp [depends_on_impl, hself, hprev, depConditions, whenKey]

theorem depends_on_impl_fst_of_ne (pkg : PackageDraft) (s : String) (w : Option String)
    (hself : pkg.name ≠ (Spec.parse s).name) :
    (depends_on_impl pkg s w).1 = none := by
  rcases hh : alGet (depConditions pkg (Spec.parse s).name) (whenKey pkg w) with _ | stored
  · rw [depends_on_impl_fresh pkg s w hself hh]
  · rw [depends_on_impl_present pkg s w stored hself hh]

theorem depends_on_impl_err (pkg : PackageDraft) (s : String) (w : Option String)
    (e : SpackError) (pkg' : PackageDraft)
    (h : depends_on_impl pkg s w = (some e, pkg')) :
    pkg' = pkg ∧ e = SpackError.circularReference "depends_on" pkg.name := by
  by_cases hself : pkg.name = (Spec.parse s).name
  · rw [depends_on_impl_self pkg s w hself] at h
    have h1 := congrArg Prod.fst h
    have h2 := congrArg Prod.snd h
    simp at h1 h2
    exact ⟨h2.symm, h1.symm⟩
  · have := depends_on_impl_fst_of_ne pkg s w hself
    rw [h] at this
    cases this

/-! ### Preservation of the self-reference invariant -/

theorem depends_on_impl_preserves_selfFree (pkg : PackageDraft) (s : String)
    (w : Option String) (hsf : selfFree pkg) :
    selfFree (depends_on_impl pkg s w).2 := by
  by_cases hself : pkg.name = (Spec.parse s).name
  · rw [depends_on_impl_self pkg s w hself]
    exact hsf
  · have key : ∀ conds : List (Spec × Spec),
        selfFree (⟨pkg.name, pkg.versions,
          alSet pkg.dependencies (Spec.parse s).name conds,
          pkg.extendees, pkg.provided, pkg.variants⟩ : PackageDraft) := by
      intro conds
      refine ⟨?_, hsf.2⟩
      intro p hp
      rcases mem_alSet _ _ _ _ hp with h | h
      · exact hsf.1 p h
      · rw [h]
        exact fun he => hself he.symm
    rcases hh : alGet (depConditions pkg (Spec.parse s).name) (whenKey pkg w) with _ | stored
    · rw [depends_on_impl_fresh pkg s w hself hh]
      exact key _
    · rw [depends_on_impl_present pkg s w stored hself hh]
      exact key _

theorem providesLoop_mem (pkgName : String) (provider : Spec) (specs : List Spec)
    (provided : List (Spec × Spec))
    (h : ∀ q ∈ provided, q.1.name ≠ pkgName) :
    ∀ q ∈ (providesLoop pkgName provider specs provided).2, q.1.name ≠ pkgName := by
  induction specs generalizing provided with
  | nil => simpa [providesLoop] using h
  | cons ps rest ih =>
      by_cases hps : pkgName = ps.name
      · simpa [providesLoop, hps] using h
      · have hnext : ∀ q ∈ alSet provided ps provider, q.1.name ≠ pkgName := by
          intro q hq
          rcases mem_alSet _ _ _ _ hq with hq' | hq'
          · exact h q hq'
          · rw [hq']
            exact fun he => hps he.symm
        simpa [providesLoop, hps] using ih (alSet provided ps provider) hnext

theorem depends_on_preserves_selfFree (pkg : PackageDraft) (s : String) (w : Option String)
    (hsf : selfFree pkg) : selfFree (depends_on pkg s w).2 :=
  depends_on_impl_preserves_selfFree pkg s w hsf

theorem extends_preserves_selfFree (pkg : PackageDraft) (s : String) (w : Option String)
    (kw : List (String × String)) (hsf : selfFree pkg) :
    selfFree (extends_directive pkg s w kw).2 := by
  by_cases hext : pkg.extendees = []
  · have hP := depends_on_impl_preserves_selfFree pkg s (some (w.getD pkg.name)) hsf
    rcases hh : depends_on_impl pkg s (some (w.getD pkg.name)) with ⟨e, P⟩
    rw [hh] at hP
    cases e with
    | none =>
        simp only [extends_directive, hext, ne_eq, not_true_eq_false, if_false, hh]
        exact hP
    | some err =>
        simp only [extends_directive, hext, ne_eq, not_true_eq_false, if_false, hh]
        exact hP
  · simp only [extends_directive, ne_eq, hext, not_false_eq_true, if_true]
    exact hsf

theorem provides_preserves_selfFree (pkg : PackageDraft) (specs : List String)
    (w : Option String) (hsf : selfFree pkg) : selfFree (provides pkg specs w).2 := by
  unfold provides
  rcases hh : providesLoop pkg.name (parse_anonymous_spec (w.getD pkg.name) pkg.name)
      (specs.flatMap specListParse) pkg.provided with ⟨e, provided'⟩
  have hmem := providesLoop_mem pkg.name (parse_anonymous_spec (w.getD pkg.name) pkg.name)
      (specs.flatMap specListParse) pkg.provided hsf.2
  rw [hh] at hmem
  simp only [hh]
  exact ⟨hsf.1, hmem⟩

theorem version_preserves_selfFree (pkg : PackageDraft) (v : String) (c : Option String)
    (kw : List (String × String)) (hsf : selfFree pkg) :
    selfFree (version pkg v c kw).2 :=
  hsf

theorem variant_preserves_selfFree (pkg : PackageDraft) (nm : String) (d : PyVal)
    (descr : String) (hsf : selfFree pkg) : selfFree (variant pkg nm d descr).2 := by
  unfold variant
  by_cases hok : identifierOk nm
  · simp only [hok, not_true_eq_false, if_false]
    exact hsf
  · simp only [hok, not_false_eq_true, if_true]
    exact hsf

/-! ### Self-naming directive calls -/

theorem depends_on_self_call (pkg : PackageDraft) (w : Option String)
    (hid : identifierOk pkg.name = true) :
    depends_on pkg pkg.name w
      = (some (SpackError.circularReference "depends_on" pkg.name), pkg) :=
  depends_on_impl_self pkg pkg.name w
    (by rw [Spec.parse_no_at pkg.name (identifierOk_no_at _ hid)])

theorem extends_self_call (pkg : PackageDraft) (w : Option String)
    (kw : List (String × String)) (hid : identifierOk pkg.name = true)
    (hext : pkg.extendees = []) :
    extends_directive pkg pkg.name w kw
      = (some (SpackError.circularReference "depends_on" pkg.name), pkg) := by
  have himpl := depends_on_impl_self pkg pkg.name (some (w.getD pkg.name))
    (by rw [Spec.parse_no_at pkg.name (identifierOk_no_at _ hid)])
  simp only [extends_directive, ne_eq, hext, not_true_eq_false, if_false, himpl]

theorem extends_again_fails (pkg : PackageDraft) (s : String) (w : Option String)
    (kw : List (String × String)) (hext : pkg.extendees ≠ []) :
    extends_directive pkg s w kw
      = (some (SpackError.typeError "__init__() takes exactly 3 arguments (2 given)"), pkg) := by
  simp only [extends_directive, ne_eq, hext, not_false_eq_true, if_true]

theorem provides_self_call (pkg : PackageDraft) (w : Option String)
    (hid : identifierOk pkg.name = true) :
    provides pkg [pkg.name] w
      = (some (SpackError.circularReference "depends_on" pkg.name), pkg) := by
  unfold provides
  rw [show ([pkg.name].flatMap specListParse) = [Spec.mk pkg.name []] by
    simp [specListParse_identifier pkg.name hid]]
  simp [providesLoop]

end Directives

namespace Directives

theorem ensureAttr_preserves (attrs attrs' : List (String × Attr)) (d k : String) (a : Attr)
    (h : ensureAttr attrs d = .ok attrs') (hk : alGet attrs k = some a) :
    alGet attrs' k = some a := by
  rcases hd : alGet attrs d with _ | ad
  · simp only [ensureAttr, hd] at h
    injection h with h
    subst h
    have hkd : d ≠ k := by
      intro he
      subst he
      rw [hd] at hk
      cases hk
    rw [alGet_alSet_ne attrs d k _ hkd]
    exact hk
  · cases ad with
    | dict es =>
        simp only [ensureAttr, hd] at h
        injection h with h
        subst h
        exact hk
    | nonDict r =>
        simp only [ensureAttr, hd] at h
        exact Except.noConfusion h

theorem ensureAttr_dict_after (attrs attrs' : List (String × Attr)) (d : String)
    (h : ensureAttr attrs d = .ok attrs') : ∃ es, alGet attrs' d = some (.dict es) := by
  rcases hd : alGet attrs d with _ | ad
  · simp only [ensureAttr, hd] at h
    injection h with h
    subst h
    exact ⟨[], alGet_alSet_self _ _ _⟩
  · cases ad with
    | dict es =>
        simp only [ensureAttr, hd] at h
        injection h with h
        subst h
        exact ⟨es, hd⟩
    | nonDict r =>
        simp only [ensureAttr, hd] at h
        exact Except.noConfusion h

theorem ensureAttr_of_dict (attrs : List (String × Attr)) (d : String)
    (es : List (String × String)) (hd : alGet attrs d = some (.dict es)) :
    ensureAttr attrs d = .ok attrs := by
  simp [ensureAttr, hd]

theorem ensureAttr_of_nonDict (attrs : List (String × Attr)) (d : String) (r : String)
    (hd : alGet attrs d = some (.nonDict r)) :
    ensureAttr attrs d
      = .error (.spackError ("Package has non-dict " ++ d ++ " attribute!")) := by
  simp [ensureAttr, hd]

theorem ensureAttr_error_shape (attrs : List (String × Attr)) (d : String) (e : SpackError)
    (h : ensureAttr attrs d = .error e) : ∃ m, e = .spackError m := by
  rcases hd : alGet attrs d with _ | ad
  · simp only [ensureAttr, hd] at h
    exact Except.noConfusion h
  · cases ad with
    | dict es =>
        simp only [ensureAttr, hd] at h
        exact Except.noConfusion h
    | nonDict r =>
        simp only [ensureAttr, hd] at h
        injection h with h
        exact ⟨_, h.symm⟩

theorem edl_preserves (ds : List String) (attrs attrs' : List (String × Attr))
    (k : String) (a : Attr) (h : ensureDictsList ds attrs = .ok attrs')
    (hk : alGet attrs k = some a) : alGet attrs' k = some a := by
  induction ds generalizing attrs with
  | nil =>
      simp only [ensureDictsList] at h
      injection h with h
      subst h
      exact hk
  | cons d rest ih =>
      rcases hh : ensureAttr attrs d with e | attrs1
      · simp only [ensureDictsList, hh] at h
        exact Except.noConfusion h
      · simp only [ensureDictsList, hh] at h
        exact ih attrs1 h (ensureAttr_preserves attrs attrs1 d k a hh hk)

theorem edl_dicts_after (ds : List String) (attrs attrs' : List (String × Attr))
    (h : ensureDictsList ds attrs = .ok attrs') :
    ∀ d ∈ ds, ∃ es, alGet attrs' d = some (.dict es) := by
  induction ds generalizing attrs with
  | nil => intro d hd; cases hd
  | cons d0 rest ih =>
      rcases hh : ensureAttr attrs d0 with e | attrs1
      · simp only [ensureDictsList, hh] at h
        exact Except.noConfusion h
      · simp only [ensureDictsList, hh] at h
        intro d hd
        rcases List.mem_cons.mp hd with hd0 | hd0
        · subst hd0
          obtain ⟨es, hes⟩ := ensureAttr_dict_after attrs attrs1 d hh
          exact ⟨es, edl_preserves rest attrs1 attrs' d _ h hes⟩
        · exact ih attrs1 h d hd0

theorem edl_of_dicts (ds : List String) (attrs : List (String × Attr))
    (h : ∀ d ∈ ds, ∃ es, alGet attrs d = some (.dict es)) :
    ensureDictsList ds attrs = .ok attrs := by
  induction ds with
  | nil => rfl
  | cons d0 rest ih =>
      obtain ⟨es, hes⟩ := h d0 (List.mem_cons_self _ _)
      simp only [ensureDictsList, ensureAttr_of_dict attrs d0 es hes]
      exact ih (fun d hd => h d (List.mem_cons_of_mem _ hd))

theorem edl_error_shape (ds : List String) (attrs : List (String × Attr)) (e : SpackError)
    (h : ensureDictsList ds attrs = .error e) : ∃ m, e = .spackError m := by
  induction ds generalizing attrs with
  | nil =>
      simp only [ensureDictsList] at h
      exact Except.noConfusion h
  | cons d0 rest ih =>
      rcases hh : ensureAttr attrs d0 with e0 | attrs1
      · simp only [ensureDictsList, hh] at h
        injection h with h
        subst h
        exact ensureAttr_error_shape attrs d0 _ hh
      · simp only [ensureDictsList, hh] at h
        exact ih attrs1 h

theorem edl_fails (ds : List String) (attrs : List (String × Attr)) (d : String) (r : String)
    (hd : d ∈ ds) (ha : alGet attrs d = some (.nonDict r)) :
    ∃ e, ensureDictsList ds attrs = .error e := by
  induction ds generalizing attrs with
  | nil => cases hd
  | cons d0 rest ih =>
      rcases hh : ensureAttr attrs d0 with e0 | attrs1
      · exact ⟨e0, by simp only [ensureDictsList, hh]⟩
      · rcases List.mem_cons.mp hd with hd0 | hd0
        · subst hd0
          rw [ensureAttr_of_nonDict attrs d r ha] at hh
          cases hh
        · obtain ⟨e, he⟩ := ih attrs1 hd0 (ensureAttr_preserves attrs attrs1 d0 d _ hh ha)
          exact ⟨e, by simp only [ensureDictsList, hh, he]⟩

end Directives

namespace Directives

theorem ed_preserves (reg : List (List String)) (attrs attrs' : List (String × Attr))
    (k : String) (a : Attr) (h : ensure_dicts reg attrs = .ok attrs')
    (hk : alGet attrs k = some a) : alGet attrs' k = some a := by
  induction reg generalizing attrs with
  | nil =>
      simp only [ensure_dicts] at h
      injection h with h
      subst h
      exact hk
  | cons ds rest ih =>
      rcases hh : ensureDictsList ds attrs with e | attrs1
      · simp only [ensure_dicts, hh] at h
        exact Except.noConfusion h
      · simp only [ensure_dicts, hh] at h
        exact ih attrs1 h (edl_preserves ds attrs attrs1 k a hh hk)

theorem ed_dicts_after (reg : List (List String)) (attrs attrs' : List (String × Attr))
    (h : ensure_dicts reg attrs = .ok attrs') :
    ∀ ds ∈ reg, ∀ d ∈ ds, ∃ es, alGet attrs' d = some (.dict es) := by
  induction reg generalizing attrs with
  | nil => intro ds hds; cases hds
  | cons ds0 rest ih =>
      rcases hh : ensureDictsList ds0 attrs with e | attrs1
      · simp only [ensure_dicts, hh] at h
        exact Except.noConfusion h
      · simp only [ensure_dicts, hh] at h
        intro ds hds d hd
        rcases List.mem_cons.mp hds with hds0 | hds0
        · subst hds0
          obtain ⟨es, hes⟩ := edl_dicts_after _ attrs attrs1 hh d hd
          exact ⟨es, ed_preserves rest attrs1 attrs' d _ h hes⟩
        · exact ih attrs1 h ds hds0 d hd

theorem ed_of_dicts (reg : List (List String)) (attrs : List (String × Attr))
    (h : ∀ ds ∈ reg, ∀ d ∈ ds, ∃ es, alGet attrs d = some (.dict es)) :
    ensure_dicts reg attrs = .ok attrs := by
  induction reg with
  | nil => rfl
  | cons ds0 rest ih =>
      simp only [ensure_dicts, edl_of_dicts ds0 attrs (h ds0 (List.mem_cons_self _ _))]
      exact ih (fun ds hds => h ds (List.mem_cons_of_mem _ hds))

theorem ed_error_shape (reg : List (List String)) (attrs : List (String × Attr))
    (e : SpackError) (h : ensure_dicts reg attrs = .error e) : ∃ m, e = .spackError m := by
  induction reg generalizing attrs with
  | nil =>
      simp only [ensure_dicts] at h
      exact Except.noConfusion h
  | cons ds0 rest ih =>
      rcases hh : ensureDictsList ds0 attrs with e0 | attrs1
      · simp only [ensure_dicts, hh] at h
        injection h with h
        subst h
        exact edl_error_shape ds0 attrs _ hh
      · simp only [ensure_dicts, hh] at h
        exact ih attrs1 h

theorem ed_fails (reg : List (List String)) (attrs : List (String × Attr))
    (ds : List String) (d : String) (r : String)
    (hds : ds ∈ reg) (hd : d ∈ ds) (ha : alGet attrs d = some (.nonDict r)) :
    ∃ e, ensure_dicts reg attrs = .error e := by
  induction reg generalizing attrs with
  | nil => cases hds
  | cons ds0 rest ih =>
      rcases hh : ensureDictsList ds0 attrs with e0 | attrs1
      · exact ⟨e0, by simp only [ensure_dicts, hh]⟩
      · rcases List.mem_cons.mp hds with hds0 | hds0
        · subst hds0
          obtain ⟨e, he⟩ := edl_fails _ attrs d r hd ha
          rw [he] at hh
          cases hh
        · obtain ⟨e, he⟩ := ih attrs1 hds0 (edl_preserves ds0 attrs attrs1 d _ hh ha)
          exact ⟨e, by simp only [ensure_dicts, hh, he]⟩

end Directives

namespace Directives

theorem depends_on_impl_snd_extendees (pkg : PackageDraft) (s : String) (w : Option String) :
    ((depends_on_impl pkg s w).2).extendees = pkg.extendees := by
  by_cases hself : pkg.name = (Spec.parse s).name
  · rw [depends_on_impl_self pkg s w hself]
  · rcases hh : alGet (depConditions pkg (Spec.parse s).name) (whenKey pkg w) with _ | st
    · rw [depends_on_impl_fresh pkg s w hself hh]
    · rw [depends_on_impl_present pkg s w st hself hh]

/-- C1: two `depends_on` calls with the same `when` condition and the same
dependency name leave exactly one entry for that condition, holding the
intersection of the two declared constraints; a condition not yet present
is inserted as-is by the first call. -/
theorem claim_C1_depends_on_same_condition_merges (pkg : PackageDraft) (s1 s2 w : String)
    (hname : (Spec.parse s2).name = (Spec.parse s1).name)
    (hself : pkg.name ≠ (Spec.parse s1).name)
    (hfresh : alGet (depConditions pkg (Spec.parse s1).name) (whenKey pkg (some w)) = none) :
    ∃ pkg1 pkg2,
      depends_on pkg s1 (some w) = (none, pkg1) ∧
      depends_on pkg1 s2 (some w) = (none, pkg2) ∧
      alGet (depConditions pkg1 (Spec.parse s1).name) (whenKey pkg (some w))
        = some (Spec.parse s1) ∧
      ∃ conds, alGet pkg2.dependencies (Spec.parse s1).name = some conds ∧
        keyCount conds (whenKey pkg (some w)) = 1 ∧
        alGet conds (whenKey pkg (some w))
          = some ((Spec.parse s1).constrain (Spec.parse s2)) := by
  have e1 := depends_on_impl_fresh pkg s1 (some w) hself hfresh
  set n := (Spec.parse s1).name with hn
  set ws := whenKey pkg (some w) with hws
  set c1 := alSet (depConditions pkg n) ws (Spec.parse s1) with hc1
  set pkg1 : PackageDraft :=
    ⟨pkg.name, pkg.versions, alSet pkg.dependencies n c1,
      pkg.extendees, pkg.provided, pkg.variants⟩ with hpkg1
  have hcond1 : depConditions pkg1 n = c1 := by
    simp [depConditions, hpkg1, alGet_alSet_self]
  have hget1 : alGet c1 ws = some (Spec.parse s1) := by
    rw [hc1]; exact alGet_alSet_self _ _ _
  have hself2 : pkg1.name ≠ (Spec.parse s2).name := by
    rw [hname]; exact hself
  have hwk : whenKey pkg1 (some w) = ws := rfl
  have hprev2 : alGet (depConditions pkg1 (Spec.parse s2).name) (whenKey pkg1 (some w))
      = some (Spec.parse s1) := by
    rw [hname, hwk, hcond1]; exact hget1
  have e2 := depends_on_impl_present pkg1 s2 (some w) (Spec.parse s1) hself2 hprev2
  rw [hname, hwk, hcond1] at e2
  set conds := alSet c1 ws ((Spec.parse s1).constrain (Spec.parse s2)) with hconds
  refine ⟨pkg1, _, e1, e2, ?_, conds, ?_, ?_, ?_⟩
  · rw [hcond1]; exact hget1
  · exact alGet_alSet_self _ _ _
  · have h0 : keyCount (depConditions pkg n) ws = 0 :=
      (alGet_eq_none_iff_keyCount _ _).mp hfresh
    have h1 : keyCount c1 ws = 1 := by
      rw [hc1]; exact keyCount_alSet_of_zero _ _ _ h0
    rw [hconds]
    rw [keyCount_alSet_of_get c1 ws _ (Spec.parse s1) hget1]
    exact h1
  · rw [hconds]; exact alGet_alSet_self _ _ _

/-- Witness for C1 at the spec's own example: `depends_on(draft, "foo@1.0",
when="bar")` then `depends_on(draft, "foo@:2.0", when="bar")` on a fresh
draft named `mypkg`. -/
theorem claim_C1_witness :
    (Spec.parse "foo@:2.0").name = (Spec.parse "foo@1.0").name ∧
    (mkDraft "mypkg").name ≠ (Spec.parse "foo@1.0").name ∧
    alGet (depConditions (mkDraft "mypkg") (Spec.parse "foo@1.0").name)
      (whenKey (mkDraft "mypkg") (some "bar")) = none ∧
    (∃ pkg1 pkg2,
      depends_on (mkDraft "mypkg") "foo@1.0" (some "bar") = (none, pkg1) ∧
      depends_on pkg1 "foo@:2.0" (some "bar") = (none, pkg2) ∧
      alGet (depConditions pkg1 (Spec.parse "foo@1.0").name)
        (whenKey (mkDraft "mypkg") (some "bar")) = some (Spec.parse "foo@1.0") ∧
      ∃ conds, alGet pkg2.dependencies (Spec.parse "foo@1.0").name = some conds ∧
        keyCount conds (whenKey (mkDraft "mypkg") (some "bar")) = 1 ∧
        alGet conds (whenKey (mkDraft "mypkg") (some "bar"))
          = some ((Spec.parse "foo@1.0").constrain (Spec.parse "foo@:2.0"))) :=
  ⟨by decide, by decide, by decide,
    claim_C1_depends_on_same_condition_merges (mkDraft "mypkg") "foo@1.0" "foo@:2.0" "bar"
      (by decide) (by decide) (by decide)⟩

end Directives

namespace Directives

/-- C2 counterexample: on a draft named `pkg` that already extends
`python`, `extends(draft, "pkg")` — the draft naming itself — fails, but
with the `TypeError` of the multiple-extension path, not with a
`CircularReferenceError` as the claim states. -/
theorem claim_C2_counterexample :
    extendingDraft.name = "pkg" ∧
    extendingDraft.extendees ≠ [] ∧
    (extends_directive extendingDraft "pkg" none []).1
      = some (SpackError.typeError "__init__() takes exactly 3 arguments (2 given)") ∧
    Option.map SpackError.isCircular (extends_directive extendingDraft "pkg" none []).1
      = some false := by decide

/-- C2 (amended): with an identifier-shaped draft name, `depends_on` and
`provides` on the draft's own name always fail with
`CircularReferenceError` leaving the draft unchanged; `extends` on the
own name fails with `CircularReferenceError` when no extendee is
recorded yet, and still fails (with the `TypeError` of the
multiple-extension path) when one is; and every directive call preserves
the invariant that no dependency key and no provided spec carries the
draft's own name. -/
theorem claim_C2_self_reference_amended :
    (∀ (pkg : PackageDraft) (w : Option String), identifierOk pkg.name = true →
      depends_on pkg pkg.name w
        = (some (SpackError.circularReference "depends_on" pkg.name), pkg)) ∧
    (∀ (pkg : PackageDraft) (w : Option String) (kw : List (String × String)),
      identifierOk pkg.name = true → pkg.extendees = [] →
      extends_directive pkg pkg.name w kw
        = (some (SpackError.circularReference "depends_on" pkg.name), pkg)) ∧
    (∀ (pkg : PackageDraft) (s : String) (w : Option String)
      (kw : List (String × String)), pkg.extendees ≠ [] →
      extends_directive pkg s w kw
        = (some (SpackError.typeError "__init__() takes exactly 3 arguments (2 given)"), pkg)) ∧
    (∀ (pkg : PackageDraft) (w : Option String), identifierOk pkg.name = true →
      provides pkg [pkg.name] w
        = (some (SpackError.circularReference "depends_on" pkg.name), pkg)) ∧
    (∀ (pkg : PackageDraft) (s : String) (w : Option String), selfFree pkg →
      selfFree (depends_on pkg s w).2) ∧
    (∀ (pkg : PackageDraft) (s : String) (w : Option String)
      (kw : List (String × String)), selfFree pkg →
      selfFree (extends_directive pkg s w kw).2) ∧
    (∀ (pkg : PackageDraft) (specs : List String) (w : Option String), selfFree pkg →
      selfFree (provides pkg specs w).2) ∧
    (∀ (pkg : PackageDraft) (v : String) (c : Option String)
      (kw : List (String × String)), selfFree pkg → selfFree (version pkg v c kw).2) ∧
    (∀ (pkg : PackageDraft) (nm : String) (d : PyVal) (descr : String), selfFree pkg →
      selfFree (variant pkg nm d descr).2) :=
  ⟨fun pkg w hid => depends_on_self_call pkg w hid,
   fun pkg w kw hid hext => extends_self_call pkg w kw hid hext,
   fun pkg s w kw hext => extends_again_fails pkg s w kw hext,
   fun pkg w hid => provides_self_call pkg w hid,
   fun pkg s w hsf => depends_on_preserves_selfFree pkg s w hsf,
   fun pkg s w kw hsf => extends_preserves_selfFree pkg s w kw hsf,
   fun pkg specs w hsf => provides_preserves_selfFree pkg specs w hsf,
   fun pkg v c kw hsf => version_preserves_selfFree pkg v c kw hsf,
   fun pkg nm d descr hsf => variant_preserves_selfFree pkg nm d descr hsf⟩

/-- Witness for C2 (amended) on a fresh draft named `selfpkg` and on the
already-extending draft. -/
theorem claim_C2_witness :
    (identifierOk (mkDraft "selfpkg").name = true ∧
      depends_on (mkDraft "selfpkg") "selfpkg" none
        = (some (SpackError.circularReference "depends_on" "selfpkg"), mkDraft "selfpkg")) ∧
    ((mkDraft "selfpkg").extendees = [] ∧
      extends_directive (mkDraft "selfpkg") "selfpkg" none []
        = (some (SpackError.circularReference "depends_on" "selfpkg"), mkDraft "selfpkg")) ∧
    (extendingDraft.extendees ≠ [] ∧
      extends_directive extendingDraft "selfpkg" none []
        = (some (SpackError.typeError "__init__() takes exactly 3 arguments (2 given)"),
            extendingDraft)) ∧
    provides (mkDraft "selfpkg") ["selfpkg"] none
      = (some (SpackError.circularReference "depends_on" "selfpkg"), mkDraft "selfpkg") ∧
    (selfFree (mkDraft "selfpkg") ∧ selfFree (depends_on (mkDraft "selfpkg") "hwloc" none).2) :=
  ⟨⟨by decide, claim_C2_self_reference_amended.1 (mkDraft "selfpkg") none (by decide)⟩,
   ⟨by decide,
     claim_C2_self_reference_amended.2.1 (mkDraft "selfpkg") none [] (by decide) (by decide)⟩,
   ⟨by decide,
     claim_C2_self_reference_amended.2.2.1 extendingDraft "selfpkg" none [] (by decide)⟩,
   claim_C2_self_reference_amended.2.2.2.1 (mkDraft "selfpkg") none (by decide),
   ⟨by simp [selfFree, mkDraft],
     claim_C2_self_reference_amended.2.2.2.2.1 (mkDraft "selfpkg") "hwloc" none
       (by simp [selfFree, mkDraft])⟩⟩

end Directives

namespace Directives

/-- C3: the second `extends` call on a draft does fail immediately
(leaving a single extendee entry), but the failure is a Python
`TypeError` — `DirectiveError("Packages can extend at most one other
package.")` passes one argument to the two-argument
`DirectiveError.__init__` — not a `DirectiveError`. -/
theorem claim_C3_second_extends_eval :
    (extends_directive (mkDraft "mypkg") "python" none []).1 = none ∧
    extends_directive (extends_directive (mkDraft "mypkg") "python" none []).2 "ruby" none []
      = (some (SpackError.typeError "__init__() takes exactly 3 arguments (2 given)"),
          (extends_directive (mkDraft "mypkg") "python" none []).2) ∧
    (extends_directive (mkDraft "mypkg") "python" none []).2.extendees.length = 1 ∧
    SpackError.isDirectiveError
      (SpackError.typeError "__init__() takes exactly 3 arguments (2 given)") = false := by
  decide

/-- C4 counterexample: `extends(draft, "foo@1.0")` records the extendee
under the raw spec string `"foo@1.0"`, not under the extracted
dependency name `"foo"` as the claim states. -/
theorem claim_C4_counterexample :
    (Spec.parse "foo@1.0").name = "foo" ∧
    (extends_directive (mkDraft "mypkg") "foo@1.0" none []).1 = none ∧
    alGet (extends_directive (mkDraft "mypkg") "foo@1.0" none []).2.extendees "foo" = none ∧
    alGet (extends_directive (mkDraft "mypkg") "foo@1.0" none []).2.extendees "foo@1.0"
      = some (Spec.parse "foo@1.0", []) := by decide

/-- C4 (amended): a successful `extends` runs exactly the `depends_on`
merge and additionally records `extendees[spec] = (Spec(spec), kwargs)`,
keyed by the raw spec-string argument. -/
theorem claim_C4_extends_merge_and_raw_key (pkg : PackageDraft) (s : String)
    (w : Option String) (kw : List (String × String))
    (hext : pkg.extendees = [])
    (hself : pkg.name ≠ (Spec.parse s).name) :
    (depends_on_impl pkg s (some (w.getD pkg.name))).1 = none ∧
    extends_directive pkg s w kw
      = (none,
          ⟨(depends_on_impl pkg s (some (w.getD pkg.name))).2.name,
           (depends_on_impl pkg s (some (w.getD pkg.name))).2.versions,
           (depends_on_impl pkg s (some (w.getD pkg.name))).2.dependencies,
           [(s, (Spec.parse s, kw))],
           (depends_on_impl pkg s (some (w.getD pkg.name))).2.provided,
           (depends_on_impl pkg s (some (w.getD pkg.name))).2.variants⟩) := by
  refine ⟨depends_on_impl_fst_of_ne pkg s (some (w.getD pkg.name)) hself, ?_⟩
  have hPe := depends_on_impl_snd_extendees pkg s (some (w.getD pkg.name))
  have hfst := depends_on_impl_fst_of_ne pkg s (some (w.getD pkg.name)) hself
  rcases hh : depends_on_impl pkg s (some (w.getD pkg.name)) with ⟨e, P⟩
  rw [hh] at hPe hfst
  simp only at hPe hfst
  subst hfst
  simp only [extends_directive, ne_eq, hext, not_true_eq_false, if_false, hh]
  rw [hPe, hext]
  rfl

/-- Witness for C4 (amended) at `extends(draft("mypkg"), "foo@1.0",
ignore="docs")`. -/
theorem claim_C4_witness :
    ((mkDraft "mypkg").extendees = [] ∧
      (mkDraft "mypkg").name ≠ (Spec.parse "foo@1.0").name) ∧
    (depends_on_impl (mkDraft "mypkg") "foo@1.0"
        (some ((none : Option String).getD (mkDraft "mypkg").name))).1 = none ∧
    extends_directive (mkDraft "mypkg") "foo@1.0" none [("ignore", "docs")]
      = (none,
          ⟨(depends_on_impl (mkDraft "mypkg") "foo@1.0"
              (some ((none : Option String).getD (mkDraft "mypkg").name))).2.name,
           (depends_on_impl (mkDraft "mypkg") "foo@1.0"
              (some ((none : Option String).getD (mkDraft "mypkg").name))).2.versions,
           (depends_on_impl (mkDraft "mypkg") "foo@1.0"
              (some ((none : Option String).getD (mkDraft "mypkg").name))).2.dependencies,
           [("foo@1.0", (Spec.parse "foo@1.0", [("ignore", "docs")]))],
           (depends_on_impl (mkDraft "mypkg") "foo@1.0"
              (some ((none : Option String).getD (mkDraft "mypkg").name))).2.provided,
           (depends_on_impl (mkDraft "mypkg") "foo@1.0"
              (some ((none : Option String).getD (mkDraft "mypkg").name))).2.variants⟩) :=
  ⟨⟨by decide, by decide⟩,
    (claim_C4_extends_merge_and_raw_key (mkDraft "mypkg") "foo@1.0" none
      [("ignore", "docs")] (by decide) (by decide)).1,
    (claim_C4_extends_merge_and_raw_key (mkDraft "mypkg") "foo@1.0" none
      [("ignore", "docs")] (by decide) (by decide)).2⟩

end Directives

namespace Directives

/-- C5 counterexample: an empty list (or tuple, or a list of non-name
elements) is accepted by `directive.__init__` — no validation error is
raised for the empty collection, contrary to the claim. -/
theorem claim_C5_counterexample :
    directiveInit (PyVal.list []) = Except.ok [] ∧
    directiveInit (PyVal.tuple []) = Except.ok [] ∧
    directiveInit (PyVal.list [PyAtom.int 3]) = Except.ok [PyAtom.int 3] :=
  ⟨rfl, rfl, rfl⟩

/-- C5 (amended): `directive.__init__` fails (with `TypeError`) exactly
when `dicts` is neither a string nor a list/tuple; list/tuple arguments
of any length and content are accepted, the empty collection included. -/
theorem claim_C5_registry_arg_validation :
    (∀ v : PyVal, dictsArgAccepted v = false →
      directiveInit v = Except.error (SpackError.typeError
        ("dicts arg must be list, tuple, or string. Found " ++ v.typeName ++ "."))) ∧
    (∀ v : PyVal, dictsArgAccepted v = true → ∃ fs, directiveInit v = Except.ok fs) := by
  constructor
  · intro v hv
    cases v with
    | str s => simp [dictsArgAccepted] at hv
    | list xs => simp [dictsArgAccepted] at hv
    | tuple xs => simp [dictsArgAccepted] at hv
    | bool b => rfl
    | int n => rfl
    | pynone => rfl
  · intro v hv
    cases v with
    | str s => exact ⟨_, rfl⟩
    | list xs => exact ⟨_, rfl⟩
    | tuple xs => exact ⟨_, rfl⟩
    | bool b => simp [dictsArgAccepted] at hv
    | int n => simp [dictsArgAccepted] at hv
    | pynone => simp [dictsArgAccepted] at hv

/-- Witness for C5 (amended) at `dicts=None` and `dicts="versions"`. -/
theorem claim_C5_witness :
    (dictsArgAccepted PyVal.pynone = false ∧
      directiveInit PyVal.pynone = Except.error (SpackError.typeError
        ("dicts arg must be list, tuple, or string. Found "
          ++ PyVal.pynone.typeName ++ "."))) ∧
    (dictsArgAccepted (PyVal.str "versions") = true ∧
      ∃ fs, directiveInit (PyVal.str "versions") = Except.ok fs) :=
  ⟨⟨by decide, claim_C5_registry_arg_validation.1 PyVal.pynone (by decide)⟩,
   ⟨by decide, claim_C5_registry_arg_validation.2 (PyVal.str "versions") (by decide)⟩⟩

/-- C6: directive failures do not reliably identify the offending
directive: the self-reference error raised by `provides` names
`depends_on` (a hard-coded copy of the `_depends_on` raise), and the
failures of `extends` (second call) and `variant` (bad name) raise a
bare `TypeError` carrying neither the directive nor the package name. -/
theorem claim_C6_error_identification_eval :
    provides (mkDraft "pkg") ["pkg"] none
      = (some (SpackError.circularReference "depends_on" "pkg"), mkDraft "pkg") ∧
    ("depends_on" ≠ "provides") ∧
    (variant (mkDraft "pkg") "bad name!" (PyVal.bool false) "").1
      = some (SpackError.typeError "__init__() takes exactly 3 arguments (2 given)") ∧
    (extends_directive extendingDraft "ruby" none []).1
      = some (SpackError.typeError "__init__() takes exactly 3 arguments (2 given)") ∧
    SpackError.isDirectiveError
      (SpackError.typeError "__init__() takes exactly 3 arguments (2 given)") = false := by
  decide

/-- C7: `version(draft, "1.0", checksum="abc123")` stores the fetch
parameters under `Version("1.0")` with `md5 = "abc123"`, and a second
`version` call with an identical version string overwrites the prior
entry entirely: the stored record equals what the second call alone
would store. -/
theorem claim_C7_version_md5_and_overwrite :
    (∀ pkg : PackageDraft,
      version pkg "1.0" (some "abc123") []
        = (none, ⟨pkg.name, alSet pkg.versions ⟨"1.0"⟩ [("md5", "abc123")],
            pkg.dependencies, pkg.extendees, pkg.provided, pkg.variants⟩) ∧
      alGet (version pkg "1.0" (some "abc123") []).2.versions ⟨"1.0"⟩
        = some [("md5", "abc123")]) ∧
    (∀ (pkg : PackageDraft) (ver : String) (c c' : Option String)
      (kw kw' : List (String × String)),
      (version (version pkg ver c kw).2 ver c' kw').1 = none ∧
      alGet (version (version pkg ver c kw).2 ver c' kw').2.versions ⟨ver⟩
        = alGet (version pkg ver c' kw').2.versions ⟨ver⟩) := by
  constructor
  · intro pkg
    constructor
    · simp [version, alSet]
    · simp [version, alSet, alGet_alSet_self]
  · intro pkg ver c c' kw kw'
    refine ⟨rfl, ?_⟩
    simp only [version]
    rw [alGet_alSet_self, alGet_alSet_self]

/-- C8: `variant(draft, "shared", default=True, description=" x ")`
stores default `true` and the trimmed description `"x"` (a repeated
definition overwrites the prior one); a name failing the identifier
grammar makes the call fail — but with a Python `TypeError` (the
one-argument `DirectiveError` construction), not a `DirectiveError`. -/
theorem claim_C8_variant_eval :
    variant (mkDraft "p") "shared" (PyVal.bool true) " x "
      = (none, ⟨"p", [], [], [], [], [("shared", ⟨true, "x"⟩)]⟩) ∧
    (variant (variant (mkDraft "p") "shared" (PyVal.bool false) "old").2
        "shared" (PyVal.bool true) " x ").2.variants
      = [("shared", ⟨true, "x"⟩)] ∧
    identifierOk "bad name!" = false ∧
    variant (mkDraft "p") "bad name!" (PyVal.bool false) ""
      = (some (SpackError.typeError "__init__() takes exactly 3 arguments (2 given)"),
          mkDraft "p") ∧
    SpackError.isDirectiveError
      (SpackError.typeError "__init__() takes exactly 3 arguments (2 given)") = false := by
  decide

end Directives

namespace Directives

/-- C9: `ensure_dicts` is idempotent — a second run over the result of a
successful run returns it unchanged — and a required field already
present as a non-mapping makes it fail with a plain
`spack.error.SpackError`, which is not a `DirectiveError`. -/
theorem claim_C9_ensure_dicts_idempotent_and_nondict :
    (∀ (reg : List (List String)) (attrs attrs' : List (String × Attr)),
      ensure_dicts reg attrs = .ok attrs' → ensure_dicts reg attrs' = .ok attrs') ∧
    (∀ (reg : List (List String)) (attrs : List (String × Attr)) (ds : List String)
      (d r : String), ds ∈ reg → d ∈ ds → alGet attrs d = some (.nonDict r) →
      ∃ msg, ensure_dicts reg attrs = .error (.spackError msg)) ∧
    (∀ msg, SpackError.isDirectiveError (SpackError.spackError msg) = false) := by
  refine ⟨?_, ?_, fun msg => rfl⟩
  · intro reg attrs attrs' h
    exact ed_of_dicts reg attrs' (ed_dicts_after reg attrs attrs' h)
  · intro reg attrs ds d r hds hd ha
    obtain ⟨e, he⟩ := ed_fails reg attrs ds d r hds hd ha
    obtain ⟨m, hm⟩ := ed_error_shape reg attrs e he
    exact ⟨m, by rw [he, hm]⟩

/-- Witness for C9 on the registry requiring `versions` and
`extendees`/`dependencies`: a bootstrap run, its idempotent re-run, and
a failing run over a draft whose `dependencies` attribute is an int. -/
theorem claim_C9_witness :
    (ensure_dicts [["versions"], ["extendees", "dependencies"]] []
      = Except.ok [("versions", Attr.dict []), ("extendees", Attr.dict []),
          ("dependencies", Attr.dict [])]) ∧
    (ensure_dicts [["versions"], ["extendees", "dependencies"]]
        [("versions", Attr.dict []), ("extendees", Attr.dict []),
          ("dependencies", Attr.dict [])]
      = Except.ok [("versions", Attr.dict []), ("extendees", Attr.dict []),
          ("dependencies", Attr.dict [])]) ∧
    (["extendees", "dependencies"] ∈ [["versions"], ["extendees", "dependencies"]] ∧
      "dependencies" ∈ ["extendees", "dependencies"] ∧
      alGet [("dependencies", Attr.nonDict "5")] "dependencies"
        = some (Attr.nonDict "5")) ∧
    (∃ msg, ensure_dicts [["versions"], ["extendees", "dependencies"]]
        [("dependencies", Attr.nonDict "5")]
      = Except.error (SpackError.spackError msg)) :=
  ⟨rfl,
   claim_C9_ensure_dicts_idempotent_and_nondict.1
     [["versions"], ["extendees", "dependencies"]] [] _ rfl,
   ⟨by decide, by decide, by decide⟩,
   claim_C9_ensure_dicts_idempotent_and_nondict.2.1
     [["versions"], ["extendees", "dependencies"]] [("dependencies", Attr.nonDict "5")]
     ["extendees", "dependencies"] "dependencies" "5" (by decide) (by decide) (by decide)⟩

/-- C10: when `depends_on` fails, the self-reference check has run
before any write: the returned error is the `CircularReferenceError`
and the draft is exactly the input draft, every field unchanged. -/
theorem claim_C10_failed_depends_on_leaves_draft_unchanged
    (pkg : PackageDraft) (s : String) (w : Option String) (e : SpackError)
    (pkg' : PackageDraft) (h : depends_on pkg s w = (some e, pkg')) :
    pkg' = pkg ∧ e = SpackError.circularReference "depends_on" pkg.name :=
  depends_on_impl_err pkg s w e pkg' h

/-- Witness for C10 at `depends_on(draft("foo"), "foo")`. -/
theorem claim_C10_witness :
    depends_on (mkDraft "foo") "foo" none
      = (some (SpackError.circularReference "depends_on" "foo"), mkDraft "foo") ∧
    (mkDraft "foo" = mkDraft "foo" ∧
      SpackError.circularReference "depends_on" "foo"
        = SpackError.circularReference "depends_on" (mkDraft "foo").name) :=
  ⟨by decide,
    claim_C10_failed_depends_on_leaves_draft_unchanged (mkDraft "foo") "foo" none
      (SpackError.circularReference "depends_on" "foo") (mkDraft "foo") (by decide)⟩

end Directives
